import Mathlib

/-!
Verification of the File-Chunker repository's core components against its
natural-language specification.

Shallow embedding of:
* `src/chunkers/image_chunker.py` — the geometry planner (`split_image`) and
  the parallel chunk executor (`split_chunk` via `multiprocessing.Pool.map`);
* `src/api/files/serializers.py` — `ChunkSerializer.create`, the orchestrator
  that uploads chunk artifacts and persists `Chunk` records;
* `src/database.py` — the `UserDatabase` engagement store.

Python machine integers are modelled as `Nat`/`Int`; dates (`%Y-%m-%d` strings)
as integer day indices; the MongoDB record store as explicit state.
-/

namespace FileChunker

/-! ### Geometry planner: `src/chunkers/image_chunker.py`, `split_image`

`num_chunks_horizontal = int(num_chunks ** 0.5)`: Python floor of the float
square root, modelled as `Nat.sqrt` (exact for the sizes under discussion).
`num_chunks_vertical = num_chunks // num_chunks_horizontal` (raises
ZeroDivisionError when the divisor is 0; Lean's `Nat` division returns 0 there,
and `split_image_run` below models the raising behaviour explicitly). -/

def num_chunks_horizontal (num_chunks : Nat) : Nat :=
  Nat.sqrt num_chunks

def num_chunks_vertical (num_chunks : Nat) : Nat :=
  num_chunks / num_chunks_horizontal num_chunks

/-- Python: `chunk_width = (width + num_chunks_horizontal - 1) // num_chunks_horizontal`. -/
def chunk_width (width num_chunks : Nat) : Nat :=
  (width + num_chunks_horizontal num_chunks - 1) / num_chunks_horizontal num_chunks

/-- Python: `chunk_height = (height + num_chunks_vertical - 1) // num_chunks_vertical`. -/
def chunk_height (height num_chunks : Nat) : Nat :=
  (height + num_chunks_vertical num_chunks - 1) / num_chunks_vertical num_chunks

/-- One entry of `split_args`: the crop rectangle passed to `split_chunk`,
together with the 1-based row-major index `y*num_chunks_horizontal+x+1` that
`split_image` embeds in the output file name (`f'{file_name}.chunk{...}'`).
`w`/`h` are `Int` because Python's `width - left` can go negative there. -/
structure Cell where
  left : Int
  top : Int
  w : Int
  h : Int
  nameIdx : Nat
  deriving Repr, DecidableEq

/-- The `split_args` list built by the nested `for y ... for x ...` loops of
`split_image`:
`left = x * chunk_width`, `top = y * chunk_height`,
`w = min(chunk_width, width - left)`, `h = min(chunk_height, height - top)`,
output index `y*num_chunks_horizontal+x+1`, enumerated row-major. -/
def split_args (width height num_chunks : Nat) : List Cell :=
  (List.range (num_chunks_vertical num_chunks)).flatMap fun y =>
    (List.range (num_chunks_horizontal num_chunks)).map fun x =>
      { left := (x * chunk_width width num_chunks : Nat)
        top := (y * chunk_height height num_chunks : Nat)
        w := min (chunk_width width num_chunks : Int)
              ((width : Int) - (x * chunk_width width num_chunks : Nat))
        h := min (chunk_height height num_chunks : Int)
              ((height : Int) - (y * chunk_height height num_chunks : Nat))
        nameIdx := y * num_chunks_horizontal num_chunks + x + 1 }

/-- Pixel membership in a cell's rectangle `[left, left+w) × [top, top+h)`. -/
def Cell.covers (c : Cell) (px py : Int) : Prop :=
  c.left ≤ px ∧ px < c.left + c.w ∧ c.top ≤ py ∧ py < c.top + c.h

instance (c : Cell) (px py : Int) : Decidable (c.covers px py) := by
  unfold Cell.covers; infer_instance

/-! ### One-dimensional interval analysis of the grid

A cell's horizontal extent is `[x*cw, x*cw + min(cw, W - x*cw))`; `hits1D`
is membership of a coordinate in that interval. -/

/-- Coordinate `p` lies in the `i`-th interval of a 1-D split with unclipped
step `cw` over `[0, bound)`. -/
def hits1D (cw bound : Nat) (p : Int) (i : Nat) : Prop :=
  (↑(i * cw) : Int) ≤ p ∧ p < ↑(i * cw) + min (cw : Int) ((bound : Int) - ↑(i * cw))

instance (cw bound : Nat) (p : Int) (i : Nat) : Decidable (hits1D cw bound p i) := by
  unfold hits1D; infer_instance

/-! ### Chunk executor: `split_chunk` under `multiprocessing.Pool.map`

A chunk artifact is identified by the row-major index `y*cols+x+1` that
`split_image` embeds in its output file name. -/

/-- The task `split_chunk` crops one cell with ffmpeg and returns its `output_file`
(identified here by the index embedded in the file name). -/
def split_chunk (args : Cell) : Nat :=
  args.nameIdx

/-- Model of `multiprocessing.Pool.map`: dispatches one task per list element to a
worker pool; per its semantics the result list is in the order of the input
list, independent of the order in which workers finish (`completion_order`). -/
def pool_map {α β : Type} (completion_order : Nat → Nat) (f : α → β)
    (tasks : List α) : List β :=
  tasks.map f

/-- The `chunk_files` list returned by `split_image`. -/
def split_image_files (completion_order : Nat → Nat) (W H N : Nat) : List Nat :=
  pool_map completion_order split_chunk (split_args W H N)

/-! ### Chunk orchestrator: `ChunkSerializer.create`
(`src/api/files/serializers.py`)

The loop `for i, j in enumerate(chunked_files)` uploads artifact `j` to
cloudinary, then saves a `Chunk` record with `position = i + 1`; after the
loop `shutil.rmtree` removes the chunks folder; the only handled exceptions
are `UploadedFile.DoesNotExist` and `ValueError`, so an upload or save
failure propagates, skipping both any record rollback (none exists) and the
`rmtree` call. -/

/-- A persisted `Chunk` record: 1-based `position` and the uploaded
`chunk_file` URL (identified by the uploaded artifact's index). -/
structure ChunkRec where
  position : Nat
  chunk_file : Nat
  deriving Repr, DecidableEq

/-- Observable outcome of one `ChunkSerializer.create` call: the chunk
records committed to the database, whether `shutil.rmtree` ran, and whether
the call returned normally (rather than propagating an exception). -/
structure CreateOutcome where
  saved : List ChunkRec
  workdir_removed : Bool
  ok : Bool
  deriving Repr, DecidableEq

/-- The iteration of `ChunkSerializer.create`: `upload j` models
`cloudinary.uploader.upload` (`none` = raises), `save_ok i` models
`chunk.save()` for iteration `i` (`false` = raises). A raise propagates:
already-saved records stay, `rmtree` is skipped. -/
def create_run_go (upload : Nat → Option Nat) (save_ok : Nat → Bool) :
    List Nat → Nat → List ChunkRec → CreateOutcome
  | [], _, saved => { saved := saved, workdir_removed := true, ok := true }
  | j :: rest, i, saved =>
    match upload j with
    | none => { saved := saved, workdir_removed := false, ok := false }
    | some url =>
      if save_ok i then
        create_run_go upload save_ok rest (i + 1)
          (saved ++ [{ position := i + 1, chunk_file := url }])
      else
        { saved := saved, workdir_removed := false, ok := false }

/-- Run of `ChunkSerializer.create` on a resolved `UploadedFile`. -/
def create_run (upload : Nat → Option Nat) (save_ok : Nat → Bool)
    (chunked_files : List Nat) : CreateOutcome :=
  create_run_go upload save_ok chunked_files 0 []

/-! ### Engagement store: `src/database.py`, `UserDatabase`

Dates (`now.strftime('%Y-%m-%d')`) are modelled as integer day indices, so
"yesterday" (`(now - timedelta(days=1)).strftime('%Y-%m-%d')`) is `today - 1`.
Process durations (floats) are modelled as `Rat`; the `float('inf')`
sentinels of `create_user` are modelled as `none`. -/

/-- One per-user MongoDB document, with the fields set by `create_user`. -/
structure UserRec where
  files_uploaded : Nat
  total_size : Nat
  chunks_sent : Nat
  file_type_counts : List (String × Nat)
  largest_file_size : Nat
  smallest_file_size : Option Nat
  successful_processes : Nat
  total_attempts : Nat
  fastest_process_time : Option Rat
  slowest_process_time : Rat
  activity_hours : List Nat
  last_active_date : Int
  current_streak : Nat
  longest_streak : Nat
  achievements : List String
  deriving Repr, DecidableEq

/-- Defaults written by `create_user` (called on day `today`):
counts zero, extrema sentinels (`0` / `float('inf')` = `none`),
`last_active_date` set to today's date, empty streaks and achievements. -/
def create_user_defaults (today : Int) : UserRec :=
  { files_uploaded := 0
    total_size := 0
    chunks_sent := 0
    file_type_counts := []
    largest_file_size := 0
    smallest_file_size := none
    successful_processes := 0
    total_attempts := 0
    fastest_process_time := none
    slowest_process_time := 0
    activity_hours := []
    last_active_date := today
    current_streak := 0
    longest_streak := 0
    achievements := [] }

/-- MongoDB `$min` against a field whose sentinel is `float('inf')`. -/
def opt_min_nat (cur : Option Nat) (v : Nat) : Option Nat :=
  match cur with
  | none => some v
  | some w => some (min w v)

/-- MongoDB `$min` for durations (`fastest_process_time`). -/
def opt_min_rat (cur : Option Rat) (v : Rat) : Option Rat :=
  match cur with
  | none => some v
  | some w => some (min w v)

/-- MongoDB `$inc` on `file_type_counts.{file_type}`. -/
def incr_type : List (String × Nat) → String → List (String × Nat)
  | [], t => [(t, 1)]
  | (k, v) :: rest, t =>
    if k = t then (k, v + 1) :: rest else (k, v) :: incr_type rest t

/-- MongoDB `$addToSet` on `activity_hours`. -/
def add_to_set (s : List Nat) (x : Nat) : List Nat :=
  if x ∈ s then s else s ++ [x]

/-- Record-store commands issued by an operation. -/
inductive DbOp where
  | find_one
  | update_one
  | insert_one
  | count_documents
  deriving Repr, DecidableEq

/-- Effect of `update_file_stats`' single `update_one`
(`$inc` files/size/type, `$max` largest, `$min` smallest), paired with the
store commands it issues. -/
def update_file_stats (user : UserRec) (file_size : Nat) (file_type : String) :
    UserRec × List DbOp :=
  ({ user with
      files_uploaded := user.files_uploaded + 1
      total_size := user.total_size + file_size
      file_type_counts := incr_type user.file_type_counts file_type
      largest_file_size := max user.largest_file_size file_size
      smallest_file_size := opt_min_nat user.smallest_file_size file_size },
   [DbOp.update_one])

/-- Effect of `update_process_stats`' single `update_one`. -/
def update_process_stats (user : UserRec) (process_time : Rat)
    (chunks_sent : Nat) (success : Bool) : UserRec × List DbOp :=
  ({ user with
      successful_processes := user.successful_processes + (if success then 1 else 0)
      total_attempts := user.total_attempts + 1
      chunks_sent := user.chunks_sent + chunks_sent
      fastest_process_time := opt_min_rat user.fastest_process_time process_time
      slowest_process_time := max user.slowest_process_time process_time },
   [DbOp.update_one])

/-- The client-side streak computation of `update_activity`, from the user
document it read: `+1` if `last_active_date` is yesterday, reset to `1` if it
is neither yesterday nor today, unchanged if it is today. -/
def next_streak (user : UserRec) (today : Int) : Nat :=
  if user.last_active_date = today - 1 then user.current_streak + 1
  else if user.last_active_date ≠ today then 1
  else user.current_streak

/-- Effect of `update_activity`'s `update_one` (`$set` last-active/streak
from the client-computed value, `$max` longest streak, `$addToSet` hour)
applied to the then-current document `db`. -/
def apply_activity_write (db : UserRec) (computed_streak : Nat) (today : Int)
    (hour : Nat) : UserRec :=
  { db with
      last_active_date := today
      current_streak := computed_streak
      longest_streak := max db.longest_streak computed_streak
      activity_hours := add_to_set db.activity_hours hour }

/-- Effect of `update_activity` as executed when no other writer intervenes between its
`get_user` read and its `update_one` write. -/
def update_activity_record (user : UserRec) (today : Int) (hour : Nat) : UserRec :=
  apply_activity_write user (next_streak user today) today hour

/-- Model of `update_activity` including its interaction with the store: a `find_one`
read (via `get_user`); on a missing/unreadable user it logs a warning and
returns without writing, otherwise it issues its `update_one`. -/
def update_activity (user : Option UserRec) (today : Int) (hour : Nat) :
    Option UserRec × List DbOp :=
  match user with
  | none => (none, [DbOp.find_one])
  | some u => (some (update_activity_record u today hour),
      [DbOp.find_one, DbOp.update_one])

/-- Exceptions that escape an operation (not caught by
`_safe_db_operation`). -/
inductive PyError where
  | attribute_error
  deriving Repr, DecidableEq

/-- Model of `get_user_rank`, with the outcomes of its store reads as inputs:
`user` is what `get_user` returned (`none` when the record is missing or the
read failed), `count_all`/`count_gt` the (safe-wrapped) `count_documents`
results. When `user` is `None`, the expression `user.get("total_size", 0)` —
evaluated outside any `_safe_db_operation` — raises `AttributeError`. -/
def get_user_rank (user : Option UserRec) (count_all : Option Nat)
    (count_gt : Nat → Option Nat) : Except PyError (Nat × Nat) :=
  match user with
  | none => Except.error PyError.attribute_error
  | some u =>
    Except.ok
      ((match count_gt u.total_size with
        | some r => r + 1
        | none => 0),
       (match count_all with
        | some t => t
        | none => 0))

/-- The fixed achievement table of `check_and_add_achievements`: each entry is
(condition evaluated on the user document, achievement name). -/
def achievement_conditions (user : UserRec) : List (Bool × String) :=
  [ (decide (1 ≤ user.files_uploaded), "First File"),
    (decide (100 ≤ user.files_uploaded), "File Master"),
    (decide (1000000000 ≤ user.total_size), "Data Heavyweight"),
    ((match user.fastest_process_time with
      | some t => decide (t < 1)
      | none => false), "Speed Demon"),
    (decide (7 ≤ user.current_streak), "Streak Warrior"),
    (decide (5 ≤ user.file_type_counts.length), "Type Collector") ]

/-- Loop body of `check_and_add_achievements`: accumulator is
(`new_achievements`, `current_achievements`); a condition that is true and
not yet unlocked appends its name to both. -/
def ach_step (acc : List String × List String) (p : Bool × String) :
    List String × List String :=
  if p.1 && !(acc.2.contains p.2) then (acc.1 ++ [p.2], acc.2 ++ [p.2]) else acc

/-- Model of `check_and_add_achievements`: evaluates the table against the record,
collects newly earned names, and persists the updated unlocked set
(`$set achievements`) only when at least one was earned. Returns the
newly-earned list and the resulting record. -/
def check_and_add_achievements (user : UserRec) : List String × UserRec :=
  let folded := (achievement_conditions user).foldl ach_step ([], user.achievements)
  if folded.1.isEmpty then (folded.1, user)
  else (folded.1, { user with achievements := folded.2 })

/-- Concrete engagement record used for closed evaluations: an existing user
with a 5-day streak last active the day before day 0. -/
def sample_user : UserRec :=
  { files_uploaded := 3
    total_size := 500
    chunks_sent := 4
    file_type_counts := [("png", 3)]
    largest_file_size := 300
    smallest_file_size := some 100
    successful_processes := 2
    total_attempts := 3
    fastest_process_time := some 2
    slowest_process_time := 9
    activity_hours := [10]
    last_active_date := -1
    current_streak := 5
    longest_streak := 5
    achievements := [] }

/-- Two concurrent `update_activity` calls for the same user, interleaved so
both `get_user` reads see the same snapshot `u` before either `update_one`
write lands (write of call 1 first, then call 2). -/
def update_activity_interleaved (u : UserRec) (d1 : Int) (h1 : Nat)
    (d2 : Int) (h2 : Nat) : UserRec :=
  apply_activity_write (apply_activity_write u (next_streak u d1) d1 h1)
    (next_streak u d2) d2 h2

/-- Failure modes of `split_image` as written: an unhandled probe exception
(`ffmpeg.Error` / `StopIteration` from `get_image_dimensions`), or the
`ZeroDivisionError` from `num_chunks // int(num_chunks ** 0.5)` when
`num_chunks = 0`. No `InvalidDimensions` error exists in the code. -/
inductive SplitError where
  | probe_failed
  | division_by_zero
  deriving Repr, DecidableEq

/-- Model of a `split_image` call including its failure behaviour: `probe` is
the result of `get_image_dimensions` (`none` = the probe raised), and the
grid computation raises iff the horizontal chunk count is zero. No
validation of the probed `width`/`height` or of `num_chunks` is performed. -/
def split_image_run (probe : Option (Nat × Nat)) (num_chunks : Nat) :
    Except SplitError (List Cell) :=
  match probe with
  | none => Except.error SplitError.probe_failed
  | some (width, height) =>
    if num_chunks_horizontal num_chunks = 0 then
      Except.error SplitError.division_by_zero
    else
      Except.ok (split_args width height num_chunks)

lemma sqrt_eq_exact {n k : Nat} (h1 : k * k ≤ n) (h2 : n < (k + 1) * (k + 1)) :
    Nat.sqrt n = k := by
  have ha : k ≤ Nat.sqrt n := Nat.le_sqrt.mpr h1
  have hb : Nat.sqrt n < k + 1 := Nat.sqrt_lt.mpr h2
  omega

lemma sqrt_one : Nat.sqrt 1 = 1 := sqrt_eq_exact (by omega) (by omega)

lemma sqrt_four : Nat.sqrt 4 = 2 := sqrt_eq_exact (by omega) (by omega)

/-- The ceiling division `(bound + cnt - 1) / cnt` scaled back by `cnt`
covers `bound`. -/
lemma ceil_div_covers (bound cnt : Nat) (hcnt : 1 ≤ cnt) :
    bound ≤ cnt * ((bound + cnt - 1) / cnt) := by
  have h := Nat.div_add_mod (bound + cnt - 1) cnt
  have hr : (bound + cnt - 1) % cnt < cnt := Nat.mod_lt _ (by omega)
  omega

lemma ceil_div_pos (bound cnt : Nat) (hcnt : 1 ≤ cnt) (hbound : 1 ≤ bound) :
    1 ≤ (bound + cnt - 1) / cnt :=
  (Nat.one_le_div_iff (by omega)).mpr (by omega)

/-- For an in-range coordinate, membership in interval `i` reduces to the
unclipped condition `i*cw ≤ p < i*cw + cw`. -/
lemma hits1D_iff_unclipped {cw bound i pn : Nat} (hpn : pn < bound) :
    hits1D cw bound (pn : Int) i ↔ (i * cw ≤ pn ∧ pn < i * cw + cw) := by
  unfold hits1D
  constructor
  · rintro ⟨h1, h2⟩
    have h2' : (pn : Int) < ↑(i * cw) + ↑cw := lt_of_lt_of_le h2 (by
      exact add_le_add_left (min_le_left _ _) _)
    constructor
    · exact_mod_cast h1
    · push_cast at h2' ⊢; omega
  · rintro ⟨h1, h2⟩
    refine ⟨by exact_mod_cast h1, ?_⟩
    have hmin : min (cw : Int) ((bound : Int) - ↑(i * cw)) =
        min (↑(i * cw) + (cw : Int)) (bound : Int) - ↑(i * cw) := by omega
    rw [hmin]
    have : (pn : Int) < min (↑(i * cw) + (cw : Int)) (bound : Int) := by
      rw [lt_min_iff]
      constructor
      · push_cast; exact_mod_cast (by push_cast; omega : (pn : Int) < ↑(i * cw) + ↑cw)
      · exact_mod_cast hpn
    omega

/-- The unclipped interval condition picks out exactly the index `pn / cw`. -/
lemma unclipped_iff_div {cw i pn : Nat} (hcw : 1 ≤ cw) :
    (i * cw ≤ pn ∧ pn < i * cw + cw) ↔ i = pn / cw := by
  constructor
  · rintro ⟨h1, h2⟩
    have : pn / cw = i := Nat.div_eq_of_lt_le h1 (by rw [Nat.succ_mul]; omega)
    omega
  · rintro rfl
    have h1 : pn / cw * cw ≤ pn := Nat.div_mul_le_self pn cw
    have h2 := Nat.div_add_mod pn cw
    have h3 : pn % cw < cw := Nat.mod_lt _ (by omega)
    constructor
    · exact h1
    · rw [Nat.mul_comm] at h1 ⊢
      omega

/-- Counting over `range n` yields 1 when exactly one index satisfies `p`. -/
lemma countP_range_eq_one {p : Nat → Bool} {n a : Nat} (ha : a < n)
    (hpa : p a = true) (huniq : ∀ b, b < n → p b = true → b = a) :
    (List.range n).countP p = 1 := by
  induction n with
  | zero => omega
  | succ m ih =>
    rw [List.range_succ, List.countP_append]
    by_cases hm : a = m
    · subst hm
      have h0 : (List.range a).countP p = 0 := by
        rw [List.countP_eq_zero]
        intro b hb hpb
        have := huniq b (by simp at hb; omega) hpb
        simp at hb; omega
      simp [h0, hpa]
    · have ham : a < m := by omega
      have hpm : p m = false := by
        by_contra h
        have : p m = true := by simpa using h
        exact hm (huniq m (by omega) this).symm
      rw [ih ham fun b hb hpb => huniq b (by omega) hpb]
      simp [hpm]

/-- Exactly one interval of the 1-D split contains each in-range coordinate. -/
lemma countP_hits1D (cw bound cnt pn : Nat) (hcw : 1 ≤ cw) (hpn : pn < bound)
    (hcover : bound ≤ cnt * cw) :
    (List.range cnt).countP (fun i => decide (hits1D cw bound (pn : Int) i)) = 1 := by
  have hlt : pn / cw < cnt :=
    (Nat.div_lt_iff_lt_mul (by omega)).mpr (by calc
      pn < bound := hpn
      _ ≤ cnt * cw := hcover)
  refine countP_range_eq_one hlt ?_ ?_
  · rw [decide_eq_true_eq, hits1D_iff_unclipped hpn, unclipped_iff_div hcw]
  · intro b _ hpb
    rw [decide_eq_true_eq, hits1D_iff_unclipped hpn, unclipped_iff_div hcw] at hpb
    exact hpb

lemma countP_and_const {α : Type} (p : α → Bool) (c : Bool) (l : List α) :
    l.countP (fun x => p x && c) = if c then l.countP p else 0 := by
  cases c <;> simp

lemma sum_map_ite_countP {α : Type} (p : α → Bool) (l : List α) :
    (l.map fun a => if p a then 1 else 0).sum = l.countP p := by
  induction l with
  | nil => simp
  | cons a l ih => rw [List.map_cons, List.sum_cons, List.countP_cons, ih]; omega

/-- A `split_args` cell covers a pixel iff its column interval contains `px`
and its row interval contains `py`. -/
lemma covers_split_cell (W H N x y : Nat) (px py : Int) :
    (decide (Cell.covers
      { left := (x * chunk_width W N : Nat)
        top := (y * chunk_height H N : Nat)
        w := min (chunk_width W N : Int) ((W : Int) - (x * chunk_width W N : Nat))
        h := min (chunk_height H N : Int) ((H : Int) - (y * chunk_height H N : Nat))
        nameIdx := y * num_chunks_horizontal N + x + 1 } px py)) =
    (decide (hits1D (chunk_width W N) W px x) &&
     decide (hits1D (chunk_height H N) H py y)) := by
  rw [← Bool.decide_and, decide_eq_decide]
  unfold Cell.covers hits1D
  dsimp only
  tauto

/-- The realized grid size: `split_args` enumerates `rows * cols` cells. -/
lemma split_args_length (W H N : Nat) :
    (split_args W H N).length =
      num_chunks_vertical N * num_chunks_horizontal N := by
  unfold split_args
  rw [List.length_flatMap]
  have hmap : (List.map (List.length ∘ fun y =>
      (List.range (num_chunks_horizontal N)).map fun x =>
        ({ left := (x * chunk_width W N : Nat)
           top := (y * chunk_height H N : Nat)
           w := min (chunk_width W N : Int) ((W : Int) - (x * chunk_width W N : Nat))
           h := min (chunk_height H N : Int) ((H : Int) - (y * chunk_height H N : Nat))
           nameIdx := y * num_chunks_horizontal N + x + 1 } : Cell))
      (List.range (num_chunks_vertical N))) =
      List.map (fun _ => num_chunks_horizontal N)
        (List.range (num_chunks_vertical N)) :=
    List.map_congr_left fun y _ => by simp
  rw [hmap, List.map_const', List.length_range, List.sum_replicate, smul_eq_mul]

/-- Basic positivity facts about the grid parameters when `N ≥ 1`. -/
lemma grid_pos {N : Nat} (hN : 1 ≤ N) :
    1 ≤ num_chunks_horizontal N ∧ 1 ≤ num_chunks_vertical N := by
  have h1 : 0 < Nat.sqrt N := Nat.sqrt_pos.mpr (by omega)
  refine ⟨h1, ?_⟩
  exact (Nat.one_le_div_iff h1).mpr (Nat.sqrt_le_self N)

/-- The ceiling division is tight: one fewer step per slot no longer covers
`bound`. -/
lemma ceil_div_tight (bound cnt : Nat) (hcnt : 1 ≤ cnt) (hbound : 1 ≤ bound) :
    cnt * ((bound + cnt - 1) / cnt - 1) < bound := by
  have key : ∀ q, cnt * q + (bound + cnt - 1) % cnt = bound + cnt - 1 →
      cnt * (q - 1) < bound := by
    intro q hq
    have hr : (bound + cnt - 1) % cnt < cnt := Nat.mod_lt _ (by omega)
    match q with
    | 0 => simpa using hbound
    | q' + 1 =>
      rw [Nat.mul_succ] at hq
      simpa using (by omega : cnt * q' < bound)
  exact key _ (Nat.div_add_mod (bound + cnt - 1) cnt)

/-- Helper: the row-major name indices flatten to `1, 2, …, rows*cols`. -/
lemma flatMap_row_major (rows cols : Nat) :
    (List.range rows).flatMap (fun y => (List.range cols).map fun x => y * cols + x + 1) =
      List.range' 1 (rows * cols) := by
  induction rows with
  | zero => simp
  | succ r ih =>
    rw [List.range_succ, List.flatMap_append, ih, List.flatMap_cons,
      List.flatMap_nil, List.append_nil]
    have hrow : (List.range cols).map (fun x => r * cols + x + 1) =
        List.range' (r * cols + 1) cols := by
      rw [List.range'_eq_map_range]
      exact List.map_congr_left fun x _ => by omega
    rw [hrow]
    have happ := List.range'_append 1 (r * cols) cols 1
    have h1 : 1 + 1 * (r * cols) = r * cols + 1 := by omega
    have h2 : cols + r * cols = (r + 1) * cols := by rw [Nat.succ_mul]; omega
    rw [h1, h2] at happ
    exact happ

/-- The cells of the plan are enumerated with row-major name indices
`1..rows*cols` in list order. -/
lemma split_args_nameIdx (W H N : Nat) :
    (split_args W H N).map (fun c => c.nameIdx) =
      List.range' 1 (num_chunks_vertical N * num_chunks_horizontal N) := by
  unfold split_args
  rw [List.map_flatMap]
  have : ∀ y, ((List.range (num_chunks_horizontal N)).map fun x =>
      ({ left := (x * chunk_width W N : Nat)
         top := (y * chunk_height H N : Nat)
         w := min (chunk_width W N : Int) ((W : Int) - (x * chunk_width W N : Nat))
         h := min (chunk_height H N : Int) ((H : Int) - (y * chunk_height H N : Nat))
         nameIdx := y * num_chunks_horizontal N + x + 1 } : Cell)).map
        (fun c => c.nameIdx) =
      (List.range (num_chunks_horizontal N)).map
        (fun x => y * num_chunks_horizontal N + x + 1) := by
    intro y
    rw [List.map_map]
    rfl
  calc (List.range (num_chunks_vertical N)).flatMap _ =
      (List.range (num_chunks_vertical N)).flatMap (fun y =>
        (List.range (num_chunks_horizontal N)).map
          (fun x => y * num_chunks_horizontal N + x + 1)) := by
        exact List.flatMap_congr fun y _ => this y
    _ = _ := flatMap_row_major _ _

/-- On an all-success run, `create` persists one record per chunk file with
`position = i + 1` in enumeration order, removes the workdir and returns. -/
lemma create_run_go_success (urlOf : Nat → Nat) :
    ∀ (files : List Nat) (i : Nat) (saved : List ChunkRec),
    create_run_go (fun j => some (urlOf j)) (fun _ => true) files i saved =
      { saved := saved ++ (files.enumFrom i).map
          (fun p => { position := p.1 + 1, chunk_file := urlOf p.2 })
        workdir_removed := true, ok := true } := by
  intro files
  induction files with
  | nil => intro i saved; simp [create_run_go, List.enumFrom]
  | cons j rest ih =>
    intro i saved
    simp only [create_run_go, if_true, List.enumFrom_cons, List.map_cons]
    rw [ih]
    simp

/-- Enumerating `[s+1, …, s+n]` starting at index `s` pairs each index `i`
with the value `i + 1`. -/
lemma enumFrom_range'_succ : ∀ (n s : Nat),
    List.enumFrom s (List.range' (s + 1) n) =
      (List.range' s n).map (fun i => (i, i + 1)) := by
  intro n
  induction n with
  | zero => intro s; simp
  | succ m ih =>
    intro s
    rw [List.range'_succ, List.range'_succ, List.enumFrom_cons, List.map_cons]
    have := ih (s + 1)
    rw [this]

/-- Invariant of the `create` loop: records only accumulate (no rollback),
positions stay contiguous, and the workdir is removed exactly when every
step succeeded. -/
lemma create_run_go_inv (upload : Nat → Option Nat) (save_ok : Nat → Bool) :
    ∀ (files : List Nat) (saved : List ChunkRec),
    saved.map (fun r => r.position) = List.range' 1 saved.length →
    ((create_run_go upload save_ok files saved.length saved).ok =
      (create_run_go upload save_ok files saved.length saved).workdir_removed) ∧
    ((create_run_go upload save_ok files saved.length saved).ok = true →
      (create_run_go upload save_ok files saved.length saved).saved.length =
        saved.length + files.length) ∧
    ((create_run_go upload save_ok files saved.length saved).saved.map
        (fun r => r.position) =
      List.range' 1 (create_run_go upload save_ok files saved.length saved).saved.length) ∧
    (∃ suffix, (create_run_go upload save_ok files saved.length saved).saved =
      saved ++ suffix) := by
  intro files
  induction files with
  | nil =>
    intro saved hpos
    exact ⟨rfl, fun _ => by simp [create_run_go], by simpa [create_run_go] using hpos,
      ⟨[], by simp [create_run_go]⟩⟩
  | cons j rest ih =>
    intro saved hpos
    cases hu : upload j with
    | none =>
      have hgo : create_run_go upload save_ok (j :: rest) saved.length saved =
          { saved := saved, workdir_removed := false, ok := false } := by
        rw [create_run_go, hu]
      rw [hgo]
      exact ⟨rfl, by simp, hpos, ⟨[], by simp⟩⟩
    | some url =>
      have hrec : ChunkRec := { position := saved.length + 1, chunk_file := url }
      by_cases hs : save_ok saved.length = true
      · have hgo : create_run_go upload save_ok (j :: rest) saved.length saved =
            create_run_go upload save_ok rest (saved.length + 1)
              (saved ++ [({ position := saved.length + 1, chunk_file := url } : ChunkRec)]) := by
          rw [create_run_go, hu]
          dsimp only
          rw [if_pos hs]
        rw [hgo]
        have hlen : (saved ++ [({ position := saved.length + 1, chunk_file := url } : ChunkRec)]).length =
            saved.length + 1 := by simp
        have hpos' : (saved ++ [({ position := saved.length + 1, chunk_file := url } : ChunkRec)]).map
            (fun r => r.position) =
            List.range' 1
              (saved ++ [({ position := saved.length + 1, chunk_file := url } : ChunkRec)]).length := by
          rw [List.map_append, hpos, hlen, List.range'_1_concat]
          simp [Nat.add_comm]
        have hall := ih (saved ++ [({ position := saved.length + 1, chunk_file := url } : ChunkRec)]) hpos'
        rw [hlen] at hall
        obtain ⟨h1, h2, h3, suffix, h4⟩ := hall
        refine ⟨h1, fun hok => ?_, h3,
          ⟨({ position := saved.length + 1, chunk_file := url } : ChunkRec) :: suffix, by
            rw [h4]; simp⟩⟩
        have := h2 hok
        simp only [List.length_cons, List.length_append] at this ⊢
        omega
      · have hgo : create_run_go upload save_ok (j :: rest) saved.length saved =
            { saved := saved, workdir_removed := false, ok := false } := by
          rw [create_run_go, hu]
          dsimp only
          rw [if_neg hs]
        rw [hgo]
        exact ⟨rfl, by simp, hpos, ⟨[], by simp⟩⟩

/-- The fold appends the same new names to both accumulator components. -/
lemma ach_foldl_append : ∀ (L : List (Bool × String)) (a s : List String),
    ∃ t, L.foldl ach_step (a, s) = (a ++ t, s ++ t) := by
  intro L
  induction L with
  | nil => intro a s; exact ⟨[], by simp⟩
  | cons p rest ih =>
    intro a s
    rw [List.foldl_cons]
    by_cases hb : (p.1 && !(List.contains s p.2)) = true
    · have hstep : ach_step (a, s) p = (a ++ [p.2], s ++ [p.2]) := by
        unfold ach_step; rw [if_pos hb]
      rw [hstep]
      obtain ⟨t, ht⟩ := ih (a ++ [p.2]) (s ++ [p.2])
      exact ⟨p.2 :: t, by rw [ht]; simp⟩
    · have hstep : ach_step (a, s) p = (a, s) := by
        unfold ach_step; rw [if_neg hb]
      rw [hstep]
      exact ih a s

/-- Names already unlocked stay unlocked through the fold. -/
lemma ach_foldl_preserves (L : List (Bool × String)) (a s : List String)
    (x : String) (hx : s.contains x = true) :
    (L.foldl ach_step (a, s)).2.contains x = true := by
  obtain ⟨t, ht⟩ := ach_foldl_append L a s
  rw [ht]
  simp at hx ⊢
  exact Or.inl hx

/-- Every true condition's name is unlocked after the fold. -/
lemma ach_foldl_collects : ∀ (L : List (Bool × String)) (a s : List String)
    (p : Bool × String), p ∈ L → p.1 = true →
    (L.foldl ach_step (a, s)).2.contains p.2 = true := by
  intro L
  induction L with
  | nil => intro a s p hp; simp at hp
  | cons q rest ih =>
    intro a s p hp hcond
    rw [List.foldl_cons]
    rcases List.mem_cons.mp hp with hq | hmem
    · subst hq
      by_cases hc : s.contains p.2 = true
      · have hstep : ach_step (a, s) p = (a, s) := by
          unfold ach_step; rw [if_neg (by simp; intro _; simpa using hc)]
        rw [hstep]
        exact ach_foldl_preserves rest a s p.2 hc
      · simp only [Bool.not_eq_true] at hc
        have hstep : ach_step (a, s) p = (a ++ [p.2], s ++ [p.2]) := by
          unfold ach_step; rw [if_pos (by simp [hcond]; simpa using hc)]
        rw [hstep]
        exact ach_foldl_preserves rest _ _ p.2 (by simp)
    · by_cases hb : (q.1 && !(List.contains s q.2)) = true
      · have hstep : ach_step (a, s) q = (a ++ [q.2], s ++ [q.2]) := by
          unfold ach_step; rw [if_pos hb]
        rw [hstep]
        exact ih _ _ p hmem hcond
      · have hstep : ach_step (a, s) q = (a, s) := by
          unfold ach_step; rw [if_neg hb]
        rw [hstep]
        exact ih a s p hmem hcond

/-- If every true condition is already unlocked, the fold is a no-op. -/
lemma ach_foldl_noop : ∀ (L : List (Bool × String)) (a s : List String),
    (∀ p ∈ L, p.1 = true → s.contains p.2 = true) →
    L.foldl ach_step (a, s) = (a, s) := by
  intro L
  induction L with
  | nil => intro a s _; rfl
  | cons q rest ih =>
    intro a s hall
    rw [List.foldl_cons]
    have hq : ach_step (a, s) q = (a, s) := by
      unfold ach_step
      by_cases hc : q.1 = true
      · rw [if_neg (by simp; intro _; simpa using hall q (by simp) hc)]
      · rw [if_neg (by simp; intro hq1; exact absurd hq1 hc)]
    rw [hq]
    exact ih a s fun p hp => hall p (by simp [hp])

/-- The condition table only reads statistics fields, so it is unchanged by
an update of the `achievements` field. -/
lemma achievement_conditions_set_achievements (user : UserRec) (x : List String) :
    achievement_conditions { user with achievements := x } =
      achievement_conditions user := rfl

/-- Claim C1: For every `W, H, N ≥ 1` the cells enumerated by `split_image`
partition the pixel rectangle `[0,W) × [0,H)`: every pixel is covered by
exactly one cell — no overlaps, no gaps — even when `N` does not evenly
divide the dimensions. -/
theorem split_image_cells_partition (W H N : Nat) (hW : 1 ≤ W) (hH : 1 ≤ H)
    (hN : 1 ≤ N) (px py : Int) (hx0 : 0 ≤ px) (hxW : px < W)
    (hy0 : 0 ≤ py) (hyH : py < H) :
    (split_args W H N).countP (fun c => decide (c.covers px py)) = 1 := by
  obtain ⟨hcols, hrows⟩ := grid_pos hN
  have hcw : 1 ≤ chunk_width W N := ceil_div_pos W _ hcols hW
  have hch : 1 ≤ chunk_height H N := ceil_div_pos H _ hrows hH
  have hcovW : W ≤ num_chunks_horizontal N * chunk_width W N := ceil_div_covers W _ hcols
  have hcovH : H ≤ num_chunks_vertical N * chunk_height H N := ceil_div_covers H _ hrows
  obtain ⟨pxn, rfl⟩ : ∃ n : Nat, px = (n : Int) := ⟨px.toNat, (Int.toNat_of_nonneg hx0).symm⟩
  obtain ⟨pyn, rfl⟩ : ∃ n : Nat, py = (n : Int) := ⟨py.toNat, (Int.toNat_of_nonneg hy0).symm⟩
  have hxWn : pxn < W := by exact_mod_cast hxW
  have hyHn : pyn < H := by exact_mod_cast hyH
  unfold split_args
  rw [List.countP_flatMap]
  have hinner : ∀ y : Nat,
      ((List.countP fun c => decide (c.covers (pxn : Int) (pyn : Int))) ∘ fun y =>
        (List.range (num_chunks_horizontal N)).map fun x =>
          ({ left := (x * chunk_width W N : Nat)
             top := (y * chunk_height H N : Nat)
             w := min (chunk_width W N : Int) ((W : Int) - (x * chunk_width W N : Nat))
             h := min (chunk_height H N : Int) ((H : Int) - (y * chunk_height H N : Nat))
             nameIdx := y * num_chunks_horizontal N + x + 1 } : Cell)) y =
      if decide (hits1D (chunk_height H N) H (pyn : Int) y) then 1 else 0 := by
    intro y
    dsimp only [Function.comp]
    rw [List.countP_map]
    have heq : ((fun c => decide (Cell.covers c (pxn : Int) (pyn : Int))) ∘ fun x =>
        ({ left := (x * chunk_width W N : Nat)
           top := (y * chunk_height H N : Nat)
           w := min (chunk_width W N : Int) ((W : Int) - (x * chunk_width W N : Nat))
           h := min (chunk_height H N : Int) ((H : Int) - (y * chunk_height H N : Nat))
           nameIdx := y * num_chunks_horizontal N + x + 1 } : Cell)) =
        fun x => decide (hits1D (chunk_width W N) W (pxn : Int) x) &&
          decide (hits1D (chunk_height H N) H (pyn : Int) y) := by
      funext x
      exact covers_split_cell W H N x y _ _
    rw [heq, countP_and_const]
    by_cases hy : decide (hits1D (chunk_height H N) H (pyn : Int) y) = true
    · rw [if_pos hy, if_pos hy, countP_hits1D _ _ _ _ hcw hxWn hcovW]
    · simp only [Bool.not_eq_true] at hy
      rw [hy]; simp
  rw [List.map_congr_left fun y _ => hinner y, sum_map_ite_countP,
    countP_hits1D _ _ _ _ hch hyHn hcovH]

/-- Witness for C1: a 3×3 image split into a 2×2 grid (N=4, uneven cells);
the pixel (2,2) is covered exactly once. -/
theorem split_image_cells_partition_witness :
    (1 ≤ 3 ∧ 1 ≤ 3 ∧ 1 ≤ 4 ∧ (0:Int) ≤ 2 ∧ (2:Int) < 3) ∧
    (split_args 3 3 4).countP (fun c => decide (c.covers 2 2)) = 1 := by
  refine ⟨by norm_num, split_image_cells_partition 3 3 4 (by norm_num) (by norm_num)
    (by norm_num) 2 2 (by norm_num) (by norm_num) (by norm_num) (by norm_num)⟩

/-- Claim C6: The planner's grid shape: `cols = ⌊√N⌋`, `rows = ⌊N / cols⌋`,
realized count `rows*cols ≤ N` (accepted, not an error), exactly `rows*cols`
cells, unclipped cell size `⌈W/cols⌉ × ⌈H/rows⌉` (characterized as the least
step covering the image), every cell clipped to at most that size; a 100×100
image with N=4 yields four 50×50 cells, and a 101×100 image with N=4 yields
column widths {51,50} and row heights {50,50}. -/
theorem split_image_grid_shape (W H N : Nat) (hW : 1 ≤ W) (hH : 1 ≤ H)
    (hN : 1 ≤ N) :
    num_chunks_horizontal N = Nat.sqrt N ∧
    num_chunks_vertical N = N / Nat.sqrt N ∧
    num_chunks_vertical N * num_chunks_horizontal N ≤ N ∧
    (split_args W H N).length = num_chunks_vertical N * num_chunks_horizontal N ∧
    (W ≤ num_chunks_horizontal N * chunk_width W N ∧
      num_chunks_horizontal N * (chunk_width W N - 1) < W) ∧
    (H ≤ num_chunks_vertical N * chunk_height H N ∧
      num_chunks_vertical N * (chunk_height H N - 1) < H) ∧
    (∀ c ∈ split_args W H N, c.w ≤ (chunk_width W N : Int) ∧
      c.h ≤ (chunk_height H N : Int)) ∧
    (split_args 100 100 4).map (fun c => (c.w, c.h)) = List.replicate 4 ((50 : Int), (50 : Int)) ∧
    (split_args 101 100 4).map (fun c => (c.w, c.h)) =
      [((51 : Int), (50 : Int)), (50, 50), (51, 50), (50, 50)] := by
  obtain ⟨hcols, hrows⟩ := grid_pos hN
  refine ⟨rfl, rfl, ?_, split_args_length W H N, ⟨ceil_div_covers W _ hcols,
    ceil_div_tight W _ hcols hW⟩, ⟨ceil_div_covers H _ hrows,
    ceil_div_tight H _ hrows hH⟩, ?_, ?_, ?_⟩
  · exact Nat.div_mul_le_self N (Nat.sqrt N)
  · intro c hc
    simp only [split_args, List.mem_flatMap, List.mem_map, List.mem_range] at hc
    obtain ⟨y, _, x, _, rfl⟩ := hc
    exact ⟨min_le_left _ _, min_le_left _ _⟩
  · simp only [split_args, chunk_width, chunk_height, num_chunks_horizontal,
      num_chunks_vertical, sqrt_four]
    decide
  · simp only [split_args, chunk_width, chunk_height, num_chunks_horizontal,
      num_chunks_vertical, sqrt_four]
    decide

/-- Witness for C6: concrete instance at `W = H = 100`, `N = 4`. -/
theorem split_image_grid_shape_witness :
    (1 ≤ 100 ∧ 1 ≤ 4) ∧
    (split_args 100 100 4).length = num_chunks_vertical 4 * num_chunks_horizontal 4 ∧
    num_chunks_vertical 4 * num_chunks_horizontal 4 ≤ 4 :=
  ⟨by norm_num,
    (split_image_grid_shape 100 100 4 (by norm_num) (by norm_num) (by norm_num)).2.2.2.1,
    (split_image_grid_shape 100 100 4 (by norm_num) (by norm_num) (by norm_num)).2.2.1⟩

/-- Claim C2: For every successful split (all uploads and record saves
succeed), the persisted positions are exactly `1..rows*cols` in row-major
scan order — the record with position `k` holds the artifact of the `k`-th
row-major cell — regardless of the completion order of the parallel crop
tasks. -/
theorem chunk_positions_contiguous_row_major (completion_order : Nat → Nat)
    (urlOf : Nat → Nat) (W H N : Nat) :
    (create_run (fun j => some (urlOf j)) (fun _ => true)
        (split_image_files completion_order W H N)).ok = true ∧
    (create_run (fun j => some (urlOf j)) (fun _ => true)
        (split_image_files completion_order W H N)).saved.map
        (fun r => (r.position, r.chunk_file)) =
      (List.range' 1 (num_chunks_vertical N * num_chunks_horizontal N)).map
        (fun k => (k, urlOf k)) := by
  have hfiles : split_image_files completion_order W H N =
      List.range' 1 (num_chunks_vertical N * num_chunks_horizontal N) := by
    unfold split_image_files pool_map
    have : (split_args W H N).map split_chunk =
        (split_args W H N).map (fun c => c.nameIdx) := rfl
    rw [this, split_args_nameIdx]
  rw [create_run, create_run_go_success, hfiles]
  refine ⟨rfl, ?_⟩
  simp only [List.nil_append]
  have h01 : (0 : Nat) + 1 = 1 := rfl
  rw [show (List.range' 1 (num_chunks_vertical N * num_chunks_horizontal N)).enumFrom 0 =
      List.enumFrom 0 (List.range' (0 + 1) (num_chunks_vertical N * num_chunks_horizontal N)) from rfl,
    enumFrom_range'_succ]
  rw [List.map_map, List.map_map]
  rw [List.range'_eq_map_range, List.map_map, List.range'_eq_map_range, List.map_map]
  exact List.map_congr_left fun x _ => by simp [Nat.add_comm]

/-- Counterexample to claim C3: Two chunk files; the first upload succeeds, the
second raises. The already-written record with position 1 is *not* rolled
back and the working directory is *not* removed. -/
theorem create_failure_counterexample :
    (create_run (fun j => if j = 2 then none else some j) (fun _ => true)
        [1, 2]).saved = [{ position := 1, chunk_file := 1 }] ∧
    (create_run (fun j => if j = 2 then none else some j) (fun _ => true)
        [1, 2]).workdir_removed = false := by
  constructor <;> rfl

/-- Amended claim C3: If an upload or record save fails mid-batch, the
previously written chunk records remain (no rollback) and the working
directory is not removed; cleanup happens only on the all-success path.
Precisely: the workdir is removed iff the call succeeds, a successful
call persists one record per file, and the persisted records — on success
or failure — are a contiguous prefix `1..k` with no record ever deleted. -/
theorem create_no_rollback_behavior (upload : Nat → Option Nat)
    (save_ok : Nat → Bool) (files : List Nat) :
    ((create_run upload save_ok files).ok =
      (create_run upload save_ok files).workdir_removed) ∧
    ((create_run upload save_ok files).ok = true →
      (create_run upload save_ok files).saved.length = files.length) ∧
    ((create_run upload save_ok files).saved.map (fun r => r.position) =
      List.range' 1 (create_run upload save_ok files).saved.length) := by
  unfold create_run
  have := create_run_go_inv upload save_ok files ([] : List ChunkRec) (by simp)
  simp only [List.length_nil] at this
  exact ⟨this.1, fun h => by rw [this.2.1 h]; omega, this.2.2.1⟩

/-- Witness for C3, amended theorem: concrete all-success run of two
files, and a concrete failing run keeping its partial record. -/
theorem create_no_rollback_behavior_witness :
    (create_run (fun j => some j) (fun _ => true) [5, 7]).saved.length = 2 ∧
    (create_run (fun j => if j = 2 then none else some j) (fun _ => true)
        [1, 2]).saved.map (fun r => r.position) =
      List.range' 1 (create_run (fun j => if j = 2 then none else some j)
        (fun _ => true) [1, 2]).saved.length :=
  ⟨(create_no_rollback_behavior (fun j => some j) (fun _ => true) [5, 7]).2.1 (by rfl),
    (create_no_rollback_behavior (fun j => if j = 2 then none else some j)
      (fun _ => true) [1, 2]).2.2⟩

/-- Claim C4: The streak law of `update_activity`: `+1` when the stored
last-active date is exactly the day before today, unchanged when it is
today, reset to `1` otherwise; hence consecutive-day calls strictly
increase the streak, skipping a day (gap ≥ 2) resets it to 1, and a second
call on the same day leaves it unchanged. -/
theorem update_activity_streak_law (user : UserRec) (today : Int)
    (h1 h2 h3 : Nat) :
    ((user.last_active_date = today - 1 →
        (update_activity_record user today h1).current_streak =
          user.current_streak + 1) ∧
      (user.last_active_date = today →
        (update_activity_record user today h1).current_streak =
          user.current_streak) ∧
      (user.last_active_date ≠ today - 1 → user.last_active_date ≠ today →
        (update_activity_record user today h1).current_streak = 1)) ∧
    (update_activity_record (update_activity_record user today h1)
        (today + 1) h2).current_streak =
      (update_activity_record user today h1).current_streak + 1 ∧
    (∀ gap : Int, 2 ≤ gap →
      (update_activity_record (update_activity_record user today h1)
        (today + gap) h2).current_streak = 1) ∧
    (update_activity_record (update_activity_record user today h1)
        today h3).current_streak =
      (update_activity_record user today h1).current_streak := by
  simp only [update_activity_record, apply_activity_write, next_streak]
  refine ⟨⟨?_, ?_, ?_⟩, ?_, ?_, ?_⟩
  · intro h; rw [if_pos h]
  · intro h
    rw [if_neg (by omega), if_neg (by simp [h])]
  · intro hy ht
    rw [if_neg hy, if_pos ht]
  · rw [if_pos (by omega)]
  · intro gap hgap
    rw [if_neg (by omega), if_pos (by omega)]
  · rw [if_neg (by omega), if_neg (by omega)]

/-- Witness for C4: `sample_user` was last active the day before day 0,
so recording activity on day 0 increments the streak from 5 to 6. -/
theorem update_activity_streak_law_witness :
    sample_user.last_active_date = (0 : Int) - 1 ∧
    (update_activity_record sample_user 0 10).current_streak =
      sample_user.current_streak + 1 :=
  ⟨by decide,
    (update_activity_streak_law sample_user 0 10 10 10).1.1 (by decide)⟩

/-- Claim C10: `create_user` starts both streak fields at 0, and after every
`update_activity` write `longest_streak` is at least `current_streak` and
has not decreased: it is maintained as a running maximum. -/
theorem longest_streak_running_max (d today : Int) (user : UserRec)
    (hour : Nat) :
    (create_user_defaults d).current_streak = 0 ∧
    (create_user_defaults d).longest_streak = 0 ∧
    (update_activity_record user today hour).current_streak ≤
      (update_activity_record user today hour).longest_streak ∧
    user.longest_streak ≤ (update_activity_record user today hour).longest_streak := by
  refine ⟨rfl, rfl, ?_, ?_⟩
  · exact le_max_right _ _
  · exact le_max_left _ _

/-- Code bug under claim C5: When `get_user` yields `None` (record missing or
store read failed), `get_user_rank` raises `AttributeError` from
`user.get("total_size", 0)` instead of returning `(0, total_users)`. -/
theorem get_user_rank_raises_on_unreadable_user :
    get_user_rank none (some 5) (fun _ => some 0) =
      Except.error PyError.attribute_error ∧
    (∀ (count_all : Option Nat) (count_gt : Nat → Option Nat),
      get_user_rank none count_all count_gt =
        Except.error PyError.attribute_error) ∧
    get_user_rank (some sample_user) (some 5) (fun _ => none) =
      Except.ok (0, 5) :=
  ⟨rfl, fun _ _ => rfl, rfl⟩

/-- Claim C8: `check_and_add_achievements` is idempotent: a second call with no
intervening record change earns nothing new; and the unlocked set is written
back only when the call earned at least one achievement (an earning-free
call leaves the record untouched). -/
theorem check_and_add_achievements_idempotent (user : UserRec) :
    (check_and_add_achievements (check_and_add_achievements user).2).1 = [] ∧
    ((check_and_add_achievements user).1 = [] →
      (check_and_add_achievements user).2 = user) := by
  obtain ⟨t, ht⟩ := ach_foldl_append (achievement_conditions user) [] user.achievements
  simp only [List.nil_append] at ht
  constructor
  · by_cases hT : t = []
    · subst hT
      have hfirst : check_and_add_achievements user = ([], user) := by
        simp only [check_and_add_achievements, ht, List.isEmpty_nil, if_true]
      rw [hfirst]
      simp only [hfirst]
    · have hfirst : check_and_add_achievements user =
          (t, { user with achievements := user.achievements ++ t }) := by
        simp only [check_and_add_achievements, ht]
        rw [if_neg (by simp [hT])]
      rw [hfirst]
      have hnoop : (achievement_conditions
            { user with achievements := user.achievements ++ t }).foldl ach_step
          ([], ({ user with achievements := user.achievements ++ t } : UserRec).achievements) =
          ([], user.achievements ++ t) := by
        rw [achievement_conditions_set_achievements]
        exact ach_foldl_noop _ _ _ fun p hp hcond => by
          have := ach_foldl_collects (achievement_conditions user) [] user.achievements p hp hcond
          rw [ht] at this
          exact this
      simp only [check_and_add_achievements, hnoop, List.isEmpty_nil, if_true]
  · intro h
    simp only [check_and_add_achievements, ht] at h ⊢
    have hT : t = [] := by
      by_cases hT : t.isEmpty = true
      · simpa using hT
      · rw [if_neg hT] at h; exact h
    subst hT
    simp

/-- Witness for C8: on `sample_user` the first call earns achievements,
making them persisted; shown here on the record that already holds them,
where the call earns nothing and leaves the record unchanged. -/
theorem check_and_add_achievements_idempotent_witness :
    (check_and_add_achievements (check_and_add_achievements sample_user).2).1 = [] ∧
    (check_and_add_achievements
        { sample_user with achievements := ["First File"] }).1 = [] ∧
    (check_and_add_achievements
        { sample_user with achievements := ["First File"] }).2 =
      { sample_user with achievements := ["First File"] } :=
  ⟨(check_and_add_achievements_idempotent sample_user).1,
    by decide,
    (check_and_add_achievements_idempotent
      { sample_user with achievements := ["First File"] }).2 (by decide)⟩

/-- Counterexample to claim C9: `update_activity` issues a `find_one` read and a
separate `update_one` whose written values were computed client-side from
the read — two store commands, not one single atomic document update. -/
theorem update_activity_not_single_atomic_update :
    (update_activity (some sample_user) 0 10).2 =
      [DbOp.find_one, DbOp.update_one] ∧
    (update_activity (some sample_user) 0 10).2 ≠ [DbOp.update_one] :=
  ⟨rfl, by decide⟩

/-- Amended claim C9: `update_file_stats` and `update_process_stats` are each
one atomic `update_one` built from `$inc`/`$max`/`$min`, but
`update_activity` is a `find_one` read followed by a client-computed
`update_one`; interleaving two such calls for one user (both reading the
same snapshot) reaches a state — `longest_streak = 6` — that no serial
order produces (7 and 5), a lost update. -/
theorem engagement_ops_atomicity (u : UserRec) (sz : Nat) (ft : String)
    (pt : Rat) (cs : Nat) (suc : Bool) (d : Int) (hr : Nat) :
    (update_file_stats u sz ft).2 = [DbOp.update_one] ∧
    (update_process_stats u pt cs suc).2 = [DbOp.update_one] ∧
    (update_activity (some u) d hr).2 = [DbOp.find_one, DbOp.update_one] ∧
    (update_activity_interleaved sample_user 0 10 1 11).longest_streak = 6 ∧
    (update_activity_record (update_activity_record sample_user 0 10) 1 11).longest_streak = 7 ∧
    (update_activity_record (update_activity_record sample_user 1 11) 0 10).longest_streak = 5 := by
  refine ⟨rfl, rfl, rfl, ?_, ?_, ?_⟩ <;> decide

/-- Counterexample to claim C7: `split_image` performs no dimension validation:
probed width 0 (non-positive) with `N = 1` succeeds with a degenerate
zero-width cell instead of failing with any error. -/
theorem split_image_accepts_zero_width :
    split_image_run (some (0, 1)) 1 =
      Except.ok [{ left := 0, top := 0, w := 0, h := 1, nameIdx := 1 }] := by
  simp only [split_image_run, split_args, chunk_width, chunk_height,
    num_chunks_horizontal, num_chunks_vertical, sqrt_one]
  rfl

/-- Amended claim C7: `split_image` fails only when the probe cannot determine
a pixel size (unhandled probe exception) or when `N = 0`
(`ZeroDivisionError`); there is no `InvalidDimensions` error, the probed
width/height are never validated, and any `N ≥ 1` succeeds on every probed
size. -/
theorem split_image_failure_characterization (N W H : Nat) (hN : 1 ≤ N) :
    split_image_run none N = Except.error SplitError.probe_failed ∧
    split_image_run (some (W, H)) 0 = Except.error SplitError.division_by_zero ∧
    split_image_run (some (W, H)) N = Except.ok (split_args W H N) := by
  refine ⟨rfl, ?_, ?_⟩
  · simp [split_image_run, num_chunks_horizontal]
  · have hc : num_chunks_horizontal N ≠ 0 := by
      have := (grid_pos hN).1; omega
    simp [split_image_run, hc]

/-- Witness for C7, amended theorem: concrete instance at `N = 1`,
probed size 0×1. -/
theorem split_image_failure_characterization_witness :
    1 ≤ 1 ∧ split_image_run (some (0, 1)) 1 = Except.ok (split_args 0 1 1) :=
  ⟨by norm_num, (split_image_failure_characterization 1 0 1 (by norm_num)).2.2⟩

end FileChunker
